import Mathlib

/-!
Verification of the per-user AI session pool (`backend/kernel_manager.py`),
the chat-completion streaming orchestrator and tool-result normalization
(`backend/semantic_kernel_setup.py`), and the scoped settings resolver
(`backend/features/data_management/routers/settings.py` together with the
computed `specificity` column of `backend/shared/models/models.py`).

Each Python function in scope is shallowly embedded as an executable Lean
definition; stateful code (the kernel pool's dict) is embedded as explicit
state passing over an association list that mirrors Python dict semantics
(in-place update of an existing key, insertion order preserved, deletion of
the present key).  Python exceptions are embedded as `Except` values; time
stamps are naturals.
-/

/-! ## Section 1: the per-user kernel pool (`kernel_manager.py`) -/

/-- Whitespace characters removed by Python's `str.strip()` (ASCII range). -/
def pyIsSpace (c : Char) : Bool :=
  c = ' ' || c = '\t' || c = '\n' || c = '\r' || c = '\x0b' || c = '\x0c'

/-- Python's `str(user_id).strip()`: drop whitespace from both ends. -/
def pyStrip (s : String) : String :=
  String.mk (((s.data.dropWhile pyIsSpace).reverse.dropWhile pyIsSpace).reverse)

/-- One `UserKernel` instance (`kernel_manager.py` lines 17-48).  The Python
object's identity (its fresh `uuid.uuid4()` plus the object itself) is
embedded as the natural `kid`, drawn from a monotone counter, so two
kernels are the same instance iff their `kid`s are equal. -/
structure UserKernel where
  kid : Nat
  user_id : String
  tenant_id : String
  created_at : Nat
  last_accessed : Nat
  access_count : Nat
  is_active : Bool
deriving DecidableEq, Repr

/-- Construction `UserKernel(user_id, tenant_id)` at time `now`. -/
def mkUserKernel (kid : Nat) (uid tid : String) (now : Nat) : UserKernel :=
  { kid := kid, user_id := uid, tenant_id := tid, created_at := now,
    last_accessed := now, access_count := 0, is_active := true }

/-- Method `UserKernel.update_access` at time `now`. -/
def update_access (k : UserKernel) (now : Nat) : UserKernel :=
  { k with last_accessed := now, access_count := k.access_count + 1 }

/-- Lookup in the pool's dict `self._kernels` (first entry with the key). -/
def lookupK : List (String × UserKernel) → String → Option UserKernel
  | [], _ => none
  | e :: rest, k => if e.1 = k then some e.2 else lookupK rest k

/-- Python dict assignment `d[k] = v`: replace in place if the key is
present, append otherwise. -/
def insertK : List (String × UserKernel) → String → UserKernel → List (String × UserKernel)
  | [], k, v => [(k, v)]
  | e :: rest, k, v => if e.1 = k then (k, v) :: rest else e :: insertK rest k v

/-- Python dict deletion `del d[k]`: drop the (first) entry with the key. -/
def eraseK : List (String × UserKernel) → String → List (String × UserKernel)
  | [], _ => []
  | e :: rest, k => if e.1 = k then rest else e :: eraseK rest k

/-- State of a `KernelManager`: the pool dict, the supply of fresh kernel
identities, and the identities of kernels whose `cleanup()` has run
(torn-down sessions). -/
structure KernelManagerState where
  kernels : List (String × UserKernel)
  next_kid : Nat
  torn_down : List Nat
deriving DecidableEq, Repr

/-- Acquisition phase of `KernelManager.get_kernel` (lines 129-152): under
the lock, reuse the kernel stored at the normalized user id or create and
insert a fresh one; then `update_access` is applied to the obtained kernel
(an in-place mutation in Python, so the stored kernel is the updated one).
Returns the kernel handed to the `yield` together with the new state. -/
def get_kernel_acquire (st : KernelManagerState) (user_id tenant_id : String) (now : Nat) :
    UserKernel × KernelManagerState :=
  let n := pyStrip user_id
  match lookupK st.kernels n with
  | some k =>
      let k' := update_access k now
      (k', { st with kernels := insertK st.kernels n k' })
  | none =>
      let k' := update_access (mkUserKernel st.next_kid n tenant_id now) now
      (k', { st with kernels := insertK st.kernels n k', next_kid := st.next_kid + 1 })

/-- Python exceptions relevant to `get_kernel`'s error classification. -/
inductive PyError where
  | runtimeError (msg : String)
  | connectionError (msg : String)
  | valueError (msg : String)
  | otherError (msg : String)
deriving DecidableEq, Repr

/-- The classification `isinstance(e, RuntimeError | ConnectionError)` on
line 159 of `kernel_manager.py`. -/
def is_connection_fatal : PyError → Bool
  | .runtimeError _ => true
  | .connectionError _ => true
  | .valueError _ => false
  | .otherError _ => false

/-- Whole use of `async with kernel_manager.get_kernel(...)` (lines
129-164): acquire, run the body with the kernel, and on an exception
classified as connection-fatal tear down and delete that principal's
kernel before re-raising; any exception is re-raised either way. -/
def get_kernel_with (st : KernelManagerState) (user_id tenant_id : String) (now : Nat)
    (body : UserKernel → Except PyError Unit) : Except PyError Unit × KernelManagerState :=
  let n := pyStrip user_id
  let (k, st1) := get_kernel_acquire st user_id tenant_id now
  match body k with
  | .ok u => (.ok u, st1)
  | .error e =>
      if is_connection_fatal e then
        match lookupK st1.kernels n with
        | some k2 =>
            (.error e,
              { st1 with
                  kernels := eraseK st1.kernels n
                  torn_down := st1.torn_down ++ [k2.kid] })
        | none => (.error e, st1)
      else (.error e, st1)

/-- Method `KernelManager.remove_kernel` (lines 166-174): if the normalized
user id is pooled, clean that kernel up and delete it; otherwise nothing
happens. -/
def remove_kernel (st : KernelManagerState) (user_id : String) : KernelManagerState :=
  let n := pyStrip user_id
  match lookupK st.kernels n with
  | some k =>
      { st with
          kernels := eraseK st.kernels n
          torn_down := st.torn_down ++ [k.kid] }
  | none => st

/-- Method `KernelManager._cleanup_idle_kernels` (lines 115-127): collect
every kernel with `now - last_accessed > max_idle_time`, clean each up and
delete it from the dict. -/
def cleanup_idle_kernels (st : KernelManagerState) (now max_idle_time : Nat) :
    KernelManagerState :=
  let idle := st.kernels.filter (fun e => max_idle_time < now - e.2.last_accessed)
  { st with
    kernels := st.kernels.filter (fun e => ¬ max_idle_time < now - e.2.last_accessed),
    torn_down := st.torn_down ++ idle.map (fun e => e.2.kid) }

/-- Well-formedness of a pool state, true of every state reachable from the
empty pool: pooled kernel identities are below the fresh counter and
pairwise distinct, keys are distinct (a dict), and torn-down identities are
below the fresh counter. -/
structure PoolWF (st : KernelManagerState) : Prop where
  kid_lt : ∀ e ∈ st.kernels, e.2.kid < st.next_kid
  keys_nodup : (st.kernels.map Prod.fst).Nodup
  kids_nodup : (st.kernels.map (fun e => e.2.kid)).Nodup
  torn_lt : ∀ i ∈ st.torn_down, i < st.next_kid

/-! ### Dictionary lemmas -/

theorem lookupK_eq_none_iff (l : List (String × UserKernel)) (k : String) :
    lookupK l k = none ↔ k ∉ l.map Prod.fst := by
  induction l with
  | nil => simp [lookupK]
  | cons e rest ih =>
      by_cases h : e.1 = k
      · simp [lookupK, h]
      · simp only [lookupK, if_neg h, List.map_cons, List.mem_cons, ih]
        constructor
        · rintro hn (rfl | hm)
          · exact h rfl
          · exact hn hm
        · intro hn hm
          exact hn (Or.inr hm)

theorem lookupK_mem {l : List (String × UserKernel)} {k : String} {v : UserKernel}
    (h : lookupK l k = some v) : (k, v) ∈ l := by
  induction l with
  | nil => simp [lookupK] at h
  | cons e rest ih =>
      by_cases he : e.1 = k
      · simp only [lookupK, if_pos he, Option.some.injEq] at h
        subst h
        subst he
        exact List.mem_cons_self _ _
      · simp only [lookupK, if_neg he] at h
        exact List.mem_cons_of_mem _ (ih h)

theorem lookupK_insertK_self (l : List (String × UserKernel)) (k : String) (v : UserKernel) :
    lookupK (insertK l k v) k = some v := by
  induction l with
  | nil => simp [insertK, lookupK]
  | cons e rest ih =>
      by_cases he : e.1 = k
      · simp [insertK, lookupK, he]
      · simp [insertK, lookupK, he, ih]

theorem lookupK_insertK_ne (l : List (String × UserKernel)) {k k' : String} (v : UserKernel)
    (h : k' ≠ k) : lookupK (insertK l k v) k' = lookupK l k' := by
  induction l with
  | nil => simp [insertK, lookupK, Ne.symm h]
  | cons e rest ih =>
      by_cases he : e.1 = k
      · subst he
        simp [insertK, lookupK, Ne.symm h]
      · simp [insertK, lookupK, he, ih]

theorem mem_insertK {l : List (String × UserKernel)} {k : String} {v : UserKernel}
    {e : String × UserKernel} (h : e ∈ insertK l k v) : e = (k, v) ∨ e ∈ l := by
  induction l with
  | nil => simpa [insertK] using h
  | cons a rest ih =>
      by_cases ha : a.1 = k
      · simp only [insertK, if_pos ha, List.mem_cons] at h
        rcases h with h | h
        · exact Or.inl h
        · exact Or.inr (List.mem_cons_of_mem _ h)
      · simp only [insertK, if_neg ha, List.mem_cons] at h
        rcases h with h | h
        · exact Or.inr (by simp [h])
        · rcases ih h with h' | h'
          · exact Or.inl h'
          · exact Or.inr (List.mem_cons_of_mem _ h')

theorem insertK_of_lookup_none {l : List (String × UserKernel)} {k : String}
    (v : UserKernel) (h : lookupK l k = none) : insertK l k v = l ++ [(k, v)] := by
  induction l with
  | nil => simp [insertK]
  | cons e rest ih =>
      by_cases he : e.1 = k
      · simp [lookupK, he] at h
      · simp only [lookupK, if_neg he] at h
        simp [insertK, he, ih h]

theorem map_fst_insertK_of_lookup {l : List (String × UserKernel)} {k : String}
    {w : UserKernel} (v : UserKernel) (h : lookupK l k = some w) :
    (insertK l k v).map Prod.fst = l.map Prod.fst := by
  induction l with
  | nil => simp [lookupK] at h
  | cons e rest ih =>
      by_cases he : e.1 = k
      · simp [insertK, he]
      · simp only [lookupK, if_neg he] at h
        simp [insertK, he, ih h]

theorem map_kid_insertK_of_lookup {l : List (String × UserKernel)} {k : String}
    {w v : UserKernel} (h : lookupK l k = some w) (hkid : v.kid = w.kid) :
    (insertK l k v).map (fun e => e.2.kid) = l.map (fun e => e.2.kid) := by
  induction l with
  | nil => simp [lookupK] at h
  | cons e rest ih =>
      by_cases he : e.1 = k
      · simp only [lookupK, if_pos he, Option.some.injEq] at h
        subst h
        simp [insertK, he, hkid]
      · simp only [lookupK, if_neg he] at h
        simp [insertK, he, ih h]

theorem eraseK_sublist (l : List (String × UserKernel)) (k : String) :
    (eraseK l k).Sublist l := by
  induction l with
  | nil => simp [eraseK]
  | cons e rest ih =>
      by_cases he : e.1 = k
      · simp only [eraseK, if_pos he]
        exact (List.sublist_cons_self e rest)
      · simp only [eraseK, if_neg he]
        exact List.Sublist.cons₂ e ih

theorem mem_eraseK {l : List (String × UserKernel)} {k : String}
    {e : String × UserKernel} (h : e ∈ eraseK l k) : e ∈ l :=
  (eraseK_sublist l k).mem h

theorem lookupK_eraseK_self {l : List (String × UserKernel)} {k : String}
    (h : (l.map Prod.fst).Nodup) : lookupK (eraseK l k) k = none := by
  induction l with
  | nil => simp [eraseK, lookupK]
  | cons e rest ih =>
      simp only [List.map_cons, List.nodup_cons] at h
      by_cases he : e.1 = k
      · simp only [eraseK, if_pos he]
        rw [lookupK_eq_none_iff]
        rw [he] at h
        exact h.1
      · simp only [eraseK, if_neg he, lookupK, if_neg he]
        exact ih h.2

theorem lookupK_eraseK_ne (l : List (String × UserKernel)) {k k' : String}
    (h : k' ≠ k) : lookupK (eraseK l k) k' = lookupK l k' := by
  induction l with
  | nil => simp [eraseK]
  | cons e rest ih =>
      by_cases he : e.1 = k
      · subst he
        simp [eraseK, lookupK, Ne.symm h]
      · simp [eraseK, lookupK, he, ih]

/-! ### Facts about acquisition and well-formedness preservation -/

theorem acquire_lookup_self (st : KernelManagerState) (u t : String) (now : Nat) :
    lookupK (get_kernel_acquire st u t now).2.kernels (pyStrip u) =
      some (get_kernel_acquire st u t now).1 := by
  cases h : lookupK st.kernels (pyStrip u) <;>
    simp [get_kernel_acquire, h, lookupK_insertK_self]

theorem acquire_existing_kid {st : KernelManagerState} {u : String} {w : UserKernel}
    (t : String) (now : Nat) (h : lookupK st.kernels (pyStrip u) = some w) :
    (get_kernel_acquire st u t now).1.kid = w.kid := by
  simp [get_kernel_acquire, h, update_access]

theorem acquire_fresh_kid {st : KernelManagerState} {u : String}
    (t : String) (now : Nat) (h : lookupK st.kernels (pyStrip u) = none) :
    (get_kernel_acquire st u t now).1.kid = st.next_kid := by
  simp [get_kernel_acquire, h, update_access, mkUserKernel]

theorem acquire_next_kid_le (st : KernelManagerState) (u t : String) (now : Nat) :
    st.next_kid ≤ (get_kernel_acquire st u t now).2.next_kid := by
  cases h : lookupK st.kernels (pyStrip u) <;>
    simp [get_kernel_acquire, h]

theorem acquire_preserves_wf {st : KernelManagerState} (hwf : PoolWF st)
    (u t : String) (now : Nat) : PoolWF (get_kernel_acquire st u t now).2 := by
  cases h : lookupK st.kernels (pyStrip u) with
  | some k =>
      have hkid : (update_access k now).kid = k.kid := rfl
      constructor
      · intro e he
        simp only [get_kernel_acquire, h] at he ⊢
        rcases mem_insertK he with rfl | he'
        · have := hwf.kid_lt _ (lookupK_mem h)
          simpa [update_access] using this
        · exact hwf.kid_lt _ he'
      · simp only [get_kernel_acquire, h]
        rw [map_fst_insertK_of_lookup _ h]
        exact hwf.keys_nodup
      · simp only [get_kernel_acquire, h]
        rw [map_kid_insertK_of_lookup h hkid]
        exact hwf.kids_nodup
      · intro i hi
        simp only [get_kernel_acquire, h] at hi ⊢
        exact hwf.torn_lt i hi
  | none =>
      have hins := insertK_of_lookup_none
        (update_access (mkUserKernel st.next_kid (pyStrip u) t now) now) h
      have hmemkeys : pyStrip u ∉ st.kernels.map Prod.fst :=
        (lookupK_eq_none_iff _ _).mp h
      constructor
      · intro e he
        simp only [get_kernel_acquire, h, hins] at he ⊢
        rcases List.mem_append.mp he with he' | he'
        · exact Nat.lt_succ_of_lt (hwf.kid_lt _ he')
        · simp only [List.mem_singleton] at he'
          subst he'
          exact Nat.lt_succ_self _
      · simp only [get_kernel_acquire, h, hins, List.map_append, List.map_cons,
          List.map_nil]
        rw [List.nodup_append]
        refine ⟨hwf.keys_nodup, List.nodup_singleton _, ?_⟩
        intro a ha hb
        simp only [List.mem_singleton] at hb
        subst hb
        exact hmemkeys ha
      · simp only [get_kernel_acquire, h, hins, List.map_append, List.map_cons,
          List.map_nil]
        rw [List.nodup_append]
        refine ⟨hwf.kids_nodup, List.nodup_singleton _, ?_⟩
        intro a ha hb
        simp only [List.mem_singleton] at hb
        subst hb
        simp only [List.mem_map] at ha
        obtain ⟨e, he, hk⟩ := ha
        have := hwf.kid_lt e he
        simp only [update_access, mkUserKernel] at hk
        omega
      · intro i hi
        simp only [get_kernel_acquire, h] at hi ⊢
        exact Nat.lt_succ_of_lt (hwf.torn_lt i hi)

theorem lookupK_of_mem_nodup {l : List (String × UserKernel)}
    (h : (l.map Prod.fst).Nodup) {e : String × UserKernel} (he : e ∈ l) :
    lookupK l e.1 = some e.2 := by
  induction l with
  | nil => simp at he
  | cons a rest ih =>
      simp only [List.map_cons, List.nodup_cons] at h
      rcases List.mem_cons.mp he with rfl | he'
      · simp [lookupK]
      · by_cases ha : a.1 = e.1
        · exact absurd (ha ▸ List.mem_map_of_mem Prod.fst he') h.1
        · simp only [lookupK, if_neg ha]
          exact ih h.2 he'

theorem lookupK_filter (p : String × UserKernel → Bool) {l : List (String × UserKernel)}
    (h : (l.map Prod.fst).Nodup) (k : String) :
    lookupK (l.filter p) k =
      match lookupK l k with
      | some v => if p (k, v) then some v else none
      | none => none := by
  induction l with
  | nil => simp [lookupK]
  | cons e rest ih =>
      simp only [List.map_cons, List.nodup_cons] at h
      by_cases he : e.1 = k
      · subst he
        cases hp : p e
        · simp only [List.filter_cons, hp, if_neg Bool.false_ne_true]
          rw [ih h.2, (lookupK_eq_none_iff rest e.1).mpr h.1]
          simp [lookupK, hp]
        · simp [List.filter_cons, hp, lookupK]
      · cases hp : p e
        · simp only [List.filter_cons, hp, if_neg Bool.false_ne_true]
          rw [ih h.2]
          simp [lookupK, he]
        · simp only [List.filter_cons, hp, if_pos rfl]
          simp only [lookupK, if_neg he]
          rw [ih h.2]

/-! ### Claim theorems about the pool -/

/-- C1: at most one live session per normalized user-id key.  Acquire for
two principals with distinct normalized ids never returns the same kernel
instance; two acquires for the same principal with no intervening eviction
or removal return the identical instance; and acquire after remove returns
a fresh instance, never the torn-down one. -/
theorem c1_one_live_session_per_principal (st : KernelManagerState) (hwf : PoolWF st)
    (p1 p2 t1 t2 : String) (na nb : Nat) :
    (pyStrip p1 ≠ pyStrip p2 →
      ((get_kernel_acquire (get_kernel_acquire st p1 t1 na).2 p2 t2 nb).1).kid ≠
        ((get_kernel_acquire st p1 t1 na).1).kid) ∧
    (((get_kernel_acquire (get_kernel_acquire st p1 t1 na).2 p1 t1 nb).1).kid =
        ((get_kernel_acquire st p1 t1 na).1).kid) ∧
    (∀ kOld, lookupK st.kernels (pyStrip p1) = some kOld →
      ((get_kernel_acquire (remove_kernel st p1) p1 t1 nb).1).kid ≠ kOld.kid ∧
      ((get_kernel_acquire (remove_kernel st p1) p1 t1 nb).1).kid ∉
        (remove_kernel st p1).torn_down) := by
  have wf1 : PoolWF (get_kernel_acquire st p1 t1 na).2 := acquire_preserves_wf hwf p1 t1 na
  have hlk1 : lookupK (get_kernel_acquire st p1 t1 na).2.kernels (pyStrip p1) =
      some (get_kernel_acquire st p1 t1 na).1 := acquire_lookup_self st p1 t1 na
  have hk1mem : (pyStrip p1, (get_kernel_acquire st p1 t1 na).1) ∈
      (get_kernel_acquire st p1 t1 na).2.kernels := lookupK_mem hlk1
  refine ⟨?_, ?_, ?_⟩
  · intro hne
    cases h2 : lookupK (get_kernel_acquire st p1 t1 na).2.kernels (pyStrip p2) with
    | none =>
        rw [acquire_fresh_kid t2 nb h2]
        have hlt : ((get_kernel_acquire st p1 t1 na).1).kid <
            (get_kernel_acquire st p1 t1 na).2.next_kid := wf1.kid_lt _ hk1mem
        omega
    | some w =>
        rw [acquire_existing_kid t2 nb h2]
        intro heq
        have hwmem : (pyStrip p2, w) ∈ (get_kernel_acquire st p1 t1 na).2.kernels :=
          lookupK_mem h2
        have hent := List.inj_on_of_nodup_map wf1.kids_nodup hwmem hk1mem heq
        exact hne (congrArg Prod.fst hent).symm
  · exact acquire_existing_kid t1 nb hlk1
  · intro kOld hOld
    have hrm : remove_kernel st p1 =
        { st with
            kernels := eraseK st.kernels (pyStrip p1)
            torn_down := st.torn_down ++ [kOld.kid] } := by
      simp [remove_kernel, hOld]
    have hlkerase : lookupK (eraseK st.kernels (pyStrip p1)) (pyStrip p1) = none :=
      lookupK_eraseK_self hwf.keys_nodup
    have hfresh : ((get_kernel_acquire (remove_kernel st p1) p1 t1 nb).1).kid = st.next_kid := by
      rw [hrm]
      exact acquire_fresh_kid t1 nb hlkerase
    have hOldlt : kOld.kid < st.next_kid := hwf.kid_lt _ (lookupK_mem hOld)
    refine ⟨?_, ?_⟩
    · rw [hfresh]
      omega
    rw [hfresh, hrm]
    intro hmem
    rcases List.mem_append.mp hmem with hmem' | hmem'
    · exact absurd (hwf.torn_lt _ hmem') (lt_irrefl _)
    · simp only [List.mem_singleton] at hmem'
      omega

/-- C1 witness: on the empty pool, acquiring for "alice" and then for "bob"
yields two different kernel instances. -/
theorem c1_one_live_session_per_principal_witness :
    ((get_kernel_acquire (get_kernel_acquire ⟨[], 0, []⟩ "alice" "t1" 0).2 "bob" "t2" 1).1).kid ≠
      ((get_kernel_acquire (⟨[], 0, []⟩ : KernelManagerState) "alice" "t1" 0).1).kid :=
  (c1_one_live_session_per_principal ⟨[], 0, []⟩
    (by constructor <;> simp) "alice" "bob" "t1" "t2" 0 1).1 (by decide)

/-- C10: removing a kernel for a user id whose normalized form has no pooled
session completes without raising and leaves the whole manager state exactly
unchanged (no entry added, removed or mutated, no teardown recorded). -/
theorem c10_remove_kernel_absent_noop (st : KernelManagerState) (user_id : String)
    (h : lookupK st.kernels (pyStrip user_id) = none) :
    remove_kernel st user_id = st := by
  simp [remove_kernel, h]

/-- C10 witness: removing "ghost" from the empty pool changes nothing. -/
theorem c10_remove_kernel_absent_noop_witness :
    remove_kernel ⟨[], 0, []⟩ "ghost" = (⟨[], 0, []⟩ : KernelManagerState) :=
  c10_remove_kernel_absent_noop ⟨[], 0, []⟩ "ghost" rfl

/-- C7: if the body run with an acquired kernel fails with an error
classified as connection-fatal, the pool tears down and removes that
principal's kernel (so the next acquire builds a fresh instance) and the
error still propagates to the caller; if the error is not connection-fatal
the kernel is not evicted and the pool is exactly as the acquire left it. -/
theorem c7_fatal_error_evicts_nonfatal_keeps (st : KernelManagerState) (hwf : PoolWF st)
    (u t : String) (now : Nat) (e : PyError) (body : UserKernel → Except PyError Unit)
    (hb : body (get_kernel_acquire st u t now).1 = .error e) :
    (get_kernel_with st u t now body).1 = .error e ∧
    (is_connection_fatal e = true →
      lookupK (get_kernel_with st u t now body).2.kernels (pyStrip u) = none ∧
      ((get_kernel_acquire st u t now).1).kid ∈ (get_kernel_with st u t now body).2.torn_down ∧
      ∀ n2, ((get_kernel_acquire (get_kernel_with st u t now body).2 u t n2).1).kid ≠
        ((get_kernel_acquire st u t now).1).kid) ∧
    (is_connection_fatal e = false →
      (get_kernel_with st u t now body).2 = (get_kernel_acquire st u t now).2) := by
  have wf1 : PoolWF (get_kernel_acquire st u t now).2 := acquire_preserves_wf hwf u t now
  have hlk : lookupK (get_kernel_acquire st u t now).2.kernels (pyStrip u) =
      some (get_kernel_acquire st u t now).1 := acquire_lookup_self st u t now
  by_cases hf : is_connection_fatal e = true
  · have heq : get_kernel_with st u t now body =
        (.error e,
          { (get_kernel_acquire st u t now).2 with
              kernels := eraseK (get_kernel_acquire st u t now).2.kernels (pyStrip u)
              torn_down := (get_kernel_acquire st u t now).2.torn_down ++
                [((get_kernel_acquire st u t now).1).kid] }) := by
      simp [get_kernel_with, hb, hf, hlk]
    have herase : lookupK (eraseK (get_kernel_acquire st u t now).2.kernels (pyStrip u))
        (pyStrip u) = none := lookupK_eraseK_self wf1.keys_nodup
    refine ⟨by rw [heq], fun _ => ⟨?_, ?_, ?_⟩, fun hnf => absurd hf (by simp [hnf])⟩
    · rw [heq]
      exact herase
    · rw [heq]
      simp
    · intro n2
      rw [heq]
      have hfr := @acquire_fresh_kid
        { (get_kernel_acquire st u t now).2 with
            kernels := eraseK (get_kernel_acquire st u t now).2.kernels (pyStrip u)
            torn_down := (get_kernel_acquire st u t now).2.torn_down ++
              [((get_kernel_acquire st u t now).1).kid] } u t n2 herase
      rw [hfr]
      have hlt : ((get_kernel_acquire st u t now).1).kid <
          (get_kernel_acquire st u t now).2.next_kid := wf1.kid_lt _ (lookupK_mem hlk)
      show (get_kernel_acquire st u t now).2.next_kid ≠ ((get_kernel_acquire st u t now).1).kid
      omega
  · have heq : get_kernel_with st u t now body = (.error e, (get_kernel_acquire st u t now).2) := by
      simp [get_kernel_with, hb, hf]
    refine ⟨by rw [heq], fun hT => absurd hT hf, fun _ => by rw [heq]⟩

/-- C7 witness: on the empty pool, a body failing with a `ConnectionError`
propagates the error, and the kernel is gone from the pool afterwards. -/
theorem c7_fatal_error_evicts_nonfatal_keeps_witness :
    (get_kernel_with ⟨[], 0, []⟩ "u" "t" 0 (fun _ => .error (.connectionError "boom"))).1 =
      .error (.connectionError "boom") ∧
    lookupK (get_kernel_with ⟨[], 0, []⟩ "u" "t" 0
      (fun _ => .error (.connectionError "boom"))).2.kernels (pyStrip "u") = none := by
  have h := c7_fatal_error_evicts_nonfatal_keeps ⟨[], 0, []⟩ (by constructor <;> simp)
    "u" "t" 0 (.connectionError "boom") (fun _ => .error (.connectionError "boom")) rfl
  exact ⟨h.1, (h.2.1 rfl).1⟩

/-- C6 counterexample: the idle sweep uses a strict comparison
(`now - last_accessed > max_idle_time`), so a session whose age since last
access is exactly the threshold (here 5 - 0 = 5 ≥ T = 5) is NOT evicted:
it is still pooled after the sweep, contradicting the claim that every
session with age ≥ T is absent. -/
theorem c6_counterexample_age_equal_threshold_survives :
    5 - (mkUserKernel 0 "u" "t" 0).last_accessed ≥ 5 ∧
    (cleanup_idle_kernels ⟨[("u", mkUserKernel 0 "u" "t" 0)], 1, []⟩ 5 5).kernels =
      [("u", mkUserKernel 0 "u" "t" 0)] ∧
    (cleanup_idle_kernels ⟨[("u", mkUserKernel 0 "u" "t" 0)], 1, []⟩ 5 5).torn_down = [] := by
  refine ⟨by decide, by decide, by decide⟩

/-- C6 amended: after one idle-eviction sweep at time `now` with threshold
T, every session whose age since last access is strictly greater than T has
been torn down and is absent from the pool map, and every session with age
at most T (age = T included) is still present with unchanged identity. -/
theorem c6_idle_eviction_strict_threshold (st : KernelManagerState)
    (h : (st.kernels.map Prod.fst).Nodup) (now max_idle_time : Nat) :
    (∀ e ∈ st.kernels, max_idle_time < now - e.2.last_accessed →
      lookupK (cleanup_idle_kernels st now max_idle_time).kernels e.1 = none ∧
      e.2.kid ∈ (cleanup_idle_kernels st now max_idle_time).torn_down) ∧
    (∀ e ∈ st.kernels, now - e.2.last_accessed ≤ max_idle_time →
      lookupK (cleanup_idle_kernels st now max_idle_time).kernels e.1 = some e.2) := by
  have hlk : ∀ e ∈ st.kernels, lookupK st.kernels e.1 = some e.2 :=
    fun e he => lookupK_of_mem_nodup h he
  constructor
  · intro e he hidle
    constructor
    · simp only [cleanup_idle_kernels]
      rw [lookupK_filter _ h, hlk e he]
      simp [hidle]
    · simp only [cleanup_idle_kernels, List.mem_append]
      right
      refine List.mem_map.mpr ⟨e, ?_, rfl⟩
      exact List.mem_filter.mpr ⟨he, by simpa using hidle⟩
  · intro e he hkeep
    simp only [cleanup_idle_kernels]
    rw [lookupK_filter _ h, hlk e he]
    simp
    omega

/-- C6 amended witness: a session of age 6 > T = 5 is evicted and a session
of age 5 ≤ T = 5 survives the sweep. -/
theorem c6_idle_eviction_strict_threshold_witness :
    lookupK (cleanup_idle_kernels
      ⟨[("a", mkUserKernel 0 "a" "t" 0), ("b", mkUserKernel 1 "b" "t" 1)], 2, []⟩ 6 5).kernels
      "a" = none ∧
    lookupK (cleanup_idle_kernels
      ⟨[("a", mkUserKernel 0 "a" "t" 0), ("b", mkUserKernel 1 "b" "t" 1)], 2, []⟩ 6 5).kernels
      "b" = some (mkUserKernel 1 "b" "t" 1) := by
  have h := c6_idle_eviction_strict_threshold
    ⟨[("a", mkUserKernel 0 "a" "t" 0), ("b", mkUserKernel 1 "b" "t" 1)], 2, []⟩
    (by decide) 6 5
  exact ⟨(h.1 ("a", mkUserKernel 0 "a" "t" 0) (by decide) (by decide)).1,
    h.2 ("b", mkUserKernel 1 "b" "t" 1) (by decide) (by decide)⟩

/-! ## Section 2: the scoped settings resolver
(`routers/settings.py` `resolve_setting`, and the computed `specificity`
column of `SettingsV4` in `shared/models/models.py`).  UUIDs are embedded
as naturals; the JSONB payload as a string; timestamps as naturals. -/

/-- One row of the `settings_v4` table (the columns the resolver reads). -/
structure SettingsRow where
  rid : Nat
  key : String
  payload : String
  is_secret : Bool
  is_active : Bool
  organization_id : Option Nat
  domain_id : Option Nat
  environment_id : Option Nat
  audience_id : Option Nat
  updated_at : Nat
deriving DecidableEq, Repr

/-- The computed column `SettingsV4.specificity` (`models.py` lines
137-146): organization counts 2, domain 3, environment 1, audience 10. -/
def SettingsRow.specificity (r : SettingsRow) : Nat :=
  (if r.organization_id.isSome then 2 else 0) +
  (if r.domain_id.isSome then 3 else 0) +
  (if r.environment_id.isSome then 1 else 0) +
  (if r.audience_id.isSome then 10 else 0)

/-- The caller's resolved scope coordinates: organization/domain/environment
from the user record (when the oid lookup succeeds) and the audience id
from the audience-code lookup. -/
structure ResolveContext where
  user_org_id : Option Nat
  user_domain_id : Option Nat
  user_env_id : Option Nat
  audience_id : Option Nat
deriving DecidableEq, Repr

/-- The per-dimension predicate of the resolver's query (`settings.py`
lines 302-305): `or_(col.is_(None), col == caller_value)`.  When the
caller's value is a Python `None`, SQLAlchemy compiles `col == None` to
`col IS NULL`, which is exactly Option equality against `none`. -/
def dimMatch (row_dim caller_dim : Option Nat) : Bool :=
  row_dim = none || row_dim = caller_dim

/-- The resolver query's row filter (`settings.py` lines 296-306): same
key, active, not secret, and every scope dimension unset or equal to the
caller's value. -/
def isCandidate (key : String) (ctx : ResolveContext) (r : SettingsRow) : Bool :=
  r.key = key && r.is_active && !r.is_secret &&
  dimMatch r.organization_id ctx.user_org_id &&
  dimMatch r.domain_id ctx.user_domain_id &&
  dimMatch r.environment_id ctx.user_env_id &&
  dimMatch r.audience_id ctx.audience_id

/-- Whether row `a` is ordered strictly before row `b` by the query's
`ORDER BY specificity DESC, updated_at DESC` (line 307). -/
def rankHigher (a b : SettingsRow) : Bool :=
  b.specificity < a.specificity ||
  (a.specificity = b.specificity && b.updated_at < a.updated_at)

/-- The `ORDER BY ... LIMIT 1` of the resolver query: the first row of a
stable descending sort, i.e. the maximum under `rankHigher` with ties
resolved to the earliest row in store order. -/
def pickBest : List SettingsRow → Option SettingsRow
  | [] => none
  | r :: rs =>
      match pickBest rs with
      | none => some r
      | some b => if rankHigher b r then some b else some r

/-- The resolver's single SQL query (`settings.py` lines 295-312): filter
the row set to candidates and take the best-ranked row. -/
def resolveQuery (rows : List SettingsRow) (key : String) (ctx : ResolveContext) :
    Option SettingsRow :=
  pickBest (rows.filter (isCandidate key ctx))

/-- Scope description used in the response (`settings.py` lines 316-326). -/
def scope_desc (r : SettingsRow) : String :=
  let parts :=
    (if r.organization_id.isSome then ["Organization"] else []) ++
    (if r.domain_id.isSome then ["Domain"] else []) ++
    (if r.environment_id.isSome then ["Environment"] else []) ++
    (if r.audience_id.isSome then ["Audience"] else [])
  if parts = [] then "Global" else String.intercalate "+" parts

/-- The wire response of `/api/dm/settings/resolve`. -/
structure SettingsResolveResponse where
  key : String
  resolved_payload : Option String
  resolved_from : String
  specificity : Nat
  found : Bool
deriving DecidableEq, Repr

/-- The response constructed from the query result (`settings.py` lines
314-359): the best row's payload and specificity when found, the fixed
"not found" response otherwise. -/
def resolveSettingRows (rows : List SettingsRow) (key : String) (ctx : ResolveContext) :
    SettingsResolveResponse :=
  match resolveQuery rows key ctx with
  | some s =>
      { key := key, resolved_payload := some s.payload, resolved_from := scope_desc s,
        specificity := s.specificity, found := true }
  | none =>
      { key := key, resolved_payload := none,
        resolved_from := "Default (no setting found)", specificity := 0, found := false }

/-- Candidate matching as the specification words it: active, non-secret,
carrying the requested key, and each dimension unset or equal to the
caller's resolved value in that dimension. -/
def specDimMatch (row_dim caller_dim : Option Nat) : Prop :=
  row_dim = none ∨ ∃ v, caller_dim = some v ∧ row_dim = some v

/-- Specification-side candidate predicate, to be compared with the
embedded query filter `isCandidate`. -/
def specCandidate (key : String) (ctx : ResolveContext) (r : SettingsRow) : Prop :=
  r.is_active = true ∧ r.is_secret = false ∧ r.key = key ∧
  specDimMatch r.organization_id ctx.user_org_id ∧
  specDimMatch r.domain_id ctx.user_domain_id ∧
  specDimMatch r.environment_id ctx.user_env_id ∧
  specDimMatch r.audience_id ctx.audience_id

/-! ### Ranking lemmas -/

theorem rankHigher_iff (a b : SettingsRow) :
    rankHigher a b = true ↔
      (b.specificity < a.specificity ∨
        (a.specificity = b.specificity ∧ b.updated_at < a.updated_at)) := by
  simp [rankHigher]

theorem rankHigher_eq_false_iff (a b : SettingsRow) :
    rankHigher a b = false ↔
      ¬ (b.specificity < a.specificity ∨
        (a.specificity = b.specificity ∧ b.updated_at < a.updated_at)) := by
  rw [← Bool.not_eq_true, rankHigher_iff]

theorem rankHigher_irrefl (a : SettingsRow) : rankHigher a a = false := by
  rw [rankHigher_eq_false_iff]
  omega

theorem rankHigher_asymm {a b : SettingsRow} (h : rankHigher a b = true) :
    rankHigher b a = false := by
  rw [rankHigher_iff] at h
  rw [rankHigher_eq_false_iff]
  omega

theorem rankHigher_false_trans {a b c : SettingsRow}
    (h1 : rankHigher a b = false) (h2 : rankHigher c a = false) :
    rankHigher c b = false := by
  rw [rankHigher_eq_false_iff] at h1 h2 ⊢
  omega

theorem pickBest_eq_none {l : List SettingsRow} : pickBest l = none ↔ l = [] := by
  cases l with
  | nil => simp [pickBest]
  | cons r rs =>
      simp only [pickBest]
      cases hp : pickBest rs <;> simp [hp]
      split <;> simp

theorem pickBest_mem {l : List SettingsRow} {b : SettingsRow} (h : pickBest l = some b) :
    b ∈ l := by
  induction l with
  | nil => simp [pickBest] at h
  | cons r rs ih =>
      simp only [pickBest] at h
      cases hp : pickBest rs with
      | none =>
          rw [hp] at h
          simp only [Option.some.injEq] at h
          subst h
          exact List.mem_cons_self _ _
      | some c0 =>
          rw [hp] at h
          dsimp only at h
          by_cases hr : rankHigher c0 r = true
          · rw [if_pos hr] at h
            simp only [Option.some.injEq] at h
            subst h
            exact List.mem_cons_of_mem _ (ih hp)
          · rw [if_neg hr] at h
            simp only [Option.some.injEq] at h
            subst h
            exact List.mem_cons_self _ _

theorem pickBest_maximal {l : List SettingsRow} {b : SettingsRow} (h : pickBest l = some b) :
    ∀ c ∈ l, rankHigher c b = false := by
  induction l generalizing b with
  | nil => intro c hc; simp at hc
  | cons r rs ih =>
      intro c hc
      simp only [pickBest] at h
      cases hp : pickBest rs with
      | none =>
          rw [hp] at h
          simp only [Option.some.injEq] at h
          subst h
          rcases List.mem_cons.mp hc with rfl | hc'
          · exact rankHigher_irrefl c
          · rw [pickBest_eq_none.mp hp] at hc'
            simp at hc'
      | some c0 =>
          rw [hp] at h
          dsimp only at h
          by_cases hr : rankHigher c0 r = true
          · rw [if_pos hr] at h
            simp only [Option.some.injEq] at h
            subst h
            rcases List.mem_cons.mp hc with rfl | hc'
            · exact rankHigher_asymm hr
            · exact ih hp c hc'
          · rw [if_neg hr] at h
            simp only [Option.some.injEq] at h
            subst h
            rcases List.mem_cons.mp hc with rfl | hc'
            · exact rankHigher_irrefl c
            · have h2 : rankHigher c c0 = false := ih hp c hc'
              have h1 : rankHigher c0 r = false := by
                cases hx : rankHigher c0 r
                · rfl
                · exact absurd hx hr
              exact rankHigher_false_trans h1 h2

theorem dimMatch_iff (rd cd : Option Nat) :
    dimMatch rd cd = true ↔ specDimMatch rd cd := by
  cases rd with
  | none => simp [dimMatch, specDimMatch]
  | some a =>
      cases cd with
      | none => simp [dimMatch, specDimMatch]
      | some v => simp [dimMatch, specDimMatch, eq_comm]

/-- C2: the resolver's candidate set is exactly the active, non-secret rows
carrying the requested key whose four scope dimensions are each unset or
equal to the caller's resolved value; the returned row is a candidate of
maximal specificity, ties broken by the most recent update timestamp;
secret or inactive rows are never returned regardless of specificity; and
with no candidate the response is found = false, specificity = 0 and a
null payload. -/
theorem c2_resolver_candidates_and_ranking (rows : List SettingsRow) (key : String)
    (ctx : ResolveContext) :
    (∀ r : SettingsRow, isCandidate key ctx r = true ↔ specCandidate key ctx r) ∧
    (∀ s, resolveQuery rows key ctx = some s →
      s ∈ rows ∧ isCandidate key ctx s = true ∧
      ∀ c ∈ rows, isCandidate key ctx c = true →
        c.specificity < s.specificity ∨
        (c.specificity = s.specificity ∧ c.updated_at ≤ s.updated_at)) ∧
    (∀ r ∈ rows, (r.is_secret = true ∨ r.is_active = false) →
      resolveQuery rows key ctx ≠ some r) ∧
    ((∀ r ∈ rows, isCandidate key ctx r = false) →
      resolveSettingRows rows key ctx =
        { key := key, resolved_payload := none,
          resolved_from := "Default (no setting found)", specificity := 0,
          found := false }) := by
  refine ⟨?_, ?_, ?_, ?_⟩
  · intro r
    simp only [isCandidate, Bool.and_eq_true, decide_eq_true_eq, Bool.not_eq_true',
      dimMatch_iff, specCandidate]
    tauto
  · intro s hs
    have hmem := pickBest_mem hs
    have hfil := List.mem_filter.mp hmem
    refine ⟨hfil.1, hfil.2, ?_⟩
    intro c hc hcand
    have hrk : rankHigher c s = false :=
      pickBest_maximal hs c (List.mem_filter.mpr ⟨hc, hcand⟩)
    rw [rankHigher_eq_false_iff] at hrk
    omega
  · intro r hr hbad heq
    have hf := (List.mem_filter.mp (pickBest_mem heq)).2
    simp only [isCandidate, Bool.and_eq_true, decide_eq_true_eq, Bool.not_eq_true'] at hf
    rcases hbad with hb | hb
    · rw [hb] at hf
      simp at hf
    · rw [hb] at hf
      simp at hf
  · intro hnone
    have hfil : rows.filter (isCandidate key ctx) = [] := by
      rw [List.filter_eq_nil_iff]
      intro r hr
      simp [hnone r hr]
    simp [resolveSettingRows, resolveQuery, hfil, pickBest]

/-- C5: a row's derived specificity is the sum of the fixed per-dimension
weights over the dimensions it has set (audience 10, domain 3,
organization 2, environment 1), a fully unscoped row scores 0, and among
the candidates global (0) / environment-only (1) / organization-only (2)
all matching the caller, resolution returns the organization-only row. -/
theorem c5_specificity_weights_and_ranking (r : SettingsRow) :
    (r.specificity =
      (if r.audience_id.isSome then 10 else 0) + (if r.domain_id.isSome then 3 else 0) +
      (if r.organization_id.isSome then 2 else 0) +
      (if r.environment_id.isSome then 1 else 0)) ∧
    (r.organization_id = none → r.domain_id = none → r.environment_id = none →
      r.audience_id = none → r.specificity = 0) ∧
    resolveSettingRows
      [ { rid := 0, key := "k", payload := "global", is_secret := false, is_active := true,
          organization_id := none, domain_id := none, environment_id := none,
          audience_id := none, updated_at := 30 },
        { rid := 1, key := "k", payload := "env", is_secret := false, is_active := true,
          organization_id := none, domain_id := none, environment_id := some 3,
          audience_id := none, updated_at := 20 },
        { rid := 2, key := "k", payload := "org", is_secret := false, is_active := true,
          organization_id := some 1, domain_id := none, environment_id := none,
          audience_id := none, updated_at := 10 } ] "k"
      { user_org_id := some 1, user_domain_id := some 2, user_env_id := some 3,
        audience_id := some 4 } =
      { key := "k", resolved_payload := some "org", resolved_from := "Organization",
        specificity := 2, found := true } := by
  obtain ⟨rid, k, pl, sec, act, o, d, e, a, u⟩ := r
  refine ⟨?_, ?_, by decide⟩
  · cases o <;> cases d <;> cases e <;> cases a <;> simp [SettingsRow.specificity]
  · intro h1 h2 h3 h4
    simp only at h1 h2 h3 h4
    subst h1
    subst h2
    subst h3
    subst h4
    simp [SettingsRow.specificity]

/-- Outcomes of the two auxiliary database lookups made by the route
handler `resolve_setting`, plus the settings table contents.  An `error`
value models the corresponding `await db.execute(...)` raising, with the
exception's message. -/
structure ResolveDeps where
  user_lookup : Except String (Option (Option Nat × Option Nat × Option Nat))
  audience_lookup : Except String (Option Nat)
  rows : List SettingsRow
deriving Repr

/-- The route handler `resolve_setting` (`settings.py` lines 252-363).  When
an `oid` is supplied, the user-metadata query (lines 272-281) runs inside
its own try/except: a failure is logged as a warning and the caller's
organization/domain/environment stay unresolved (`None`).  When an
`audience_key` is supplied, the audience query (lines 283-291) runs with NO
local handler, so a failure there propagates to the outer handler (lines
361-363), which turns any uncaught exception into an HTTP 500 error.
Otherwise the single resolver query runs and the response is built. -/
def resolve_setting (deps : ResolveDeps) (key : String) (oid : Option String)
    (audience_key : Option String) : Except Nat SettingsResolveResponse :=
  let userMeta : Option Nat × Option Nat × Option Nat :=
    match oid with
    | none => (none, none, none)
    | some _ =>
        match deps.user_lookup with
        | .ok (some t) => t
        | .ok none => (none, none, none)
        | .error _ => (none, none, none)
  match audience_key with
  | some _ =>
      match deps.audience_lookup with
      | .error _ => .error 500
      | .ok aid =>
          .ok (resolveSettingRows deps.rows key
            { user_org_id := userMeta.1, user_domain_id := userMeta.2.1,
              user_env_id := userMeta.2.2, audience_id := aid })
  | none =>
      .ok (resolveSettingRows deps.rows key
        { user_org_id := userMeta.1, user_domain_id := userMeta.2.1,
          user_env_id := userMeta.2.2, audience_id := none })

/-- C8 counterexample: when the audience-code lookup raises, the resolve
call does NOT proceed to a resolution result: it aborts with an HTTP 500
error, because only the user-record lookup is wrapped in a local
try/except. -/
theorem c8_counterexample_audience_lookup_failure_aborts :
    resolve_setting
      { user_lookup := .ok none, audience_lookup := .error "db down", rows := [] }
      "k" none (some "aud") = .error 500 := rfl

/-- C8 amended: a failing user-record lookup is tolerated (logged as a
warning in the code): resolution proceeds with the user's three dimensions
unresolved and completes normally, whatever the audience key; but a failing
audience-code lookup (when an audience key is supplied) is not caught
locally and aborts the resolve with an HTTP 500 error. -/
theorem c8_user_lookup_tolerated_audience_lookup_fatal (rows : List SettingsRow)
    (key o au emsg : String) (aid : Option Nat) :
    (resolve_setting { user_lookup := .error emsg, audience_lookup := .ok aid, rows := rows }
        key (some o) (some au) =
      .ok (resolveSettingRows rows key
        { user_org_id := none, user_domain_id := none, user_env_id := none,
          audience_id := aid })) ∧
    (resolve_setting { user_lookup := .error emsg, audience_lookup := .ok aid, rows := rows }
        key (some o) none =
      .ok (resolveSettingRows rows key
        { user_org_id := none, user_domain_id := none, user_env_id := none,
          audience_id := none })) ∧
    (∀ ul : Except String (Option (Option Nat × Option Nat × Option Nat)),
      resolve_setting { user_lookup := ul, audience_lookup := .error emsg, rows := rows }
        key (some o) (some au) = .error 500) := by
  refine ⟨rfl, rfl, ?_⟩
  intro ul
  cases ul with
  | ok t =>
      cases t with
      | none => rfl
      | some t => rfl
  | error e => rfl

/-! ## Section 2b: tool-result normalization
(`semantic_kernel_setup.py` `serialize_function_result`, lines 23-60).
Python's duck-typed input values are embedded as a closed inductive type
with one constructor per branch the code probes: `None`, `TextContent`,
list, dict, an object with a `text` attribute, one with a `content`
attribute, one with a `value` attribute, primitives, and any other object,
which carries its type name and its `str()` rendering, or `none` when
`str()` itself raises. -/

/-- JSON-compatible output values of the normalization. -/
inductive JValue where
  | jNull
  | jBool (b : Bool)
  | jInt (n : Int)
  | jStr (s : String)
  | jList (xs : List JValue)
  | jDict (kvs : List (String × JValue))
deriving Repr

/-- Input shapes of `serialize_function_result`. -/
inductive SKValue where
  | vNone
  | vBool (b : Bool)
  | vInt (n : Int)
  | vStr (s : String)
  | textContent (text : String)
  | vList (xs : List SKValue)
  | vDict (kvs : List (String × SKValue))
  | objWithText (text : String)
  | objWithContent (content : SKValue)
  | objWithValue (value : SKValue)
  | vOther (tyName : String) (toStr : Option String)
deriving Repr

mutual

/-- Function `serialize_function_result` (lines 23-60), following the
code's branch order: unwrap `TextContent` to its text, normalize list
elements and dict values recursively, take a `text` attribute as-is,
recurse into `content` and `value` attributes, stringify any other
non-primitive with the `<Unserializable TypeName>` placeholder when
`str()` fails, and pass primitives through. -/
def serialize_function_result : SKValue → JValue
  | .vNone => .jNull
  | .textContent t => .jStr t
  | .vList xs => .jList (serializeEach xs)
  | .vDict kvs => .jDict (serializeValues kvs)
  | .objWithText t => .jStr t
  | .objWithContent c => serialize_function_result c
  | .objWithValue v => serialize_function_result v
  | .vOther _ (some s) => .jStr s
  | .vOther ty none => .jStr ("<Unserializable " ++ ty ++ ">")
  | .vStr s => .jStr s
  | .vInt n => .jInt n
  | .vBool b => .jBool b

/-- The list comprehension of the list branch. -/
def serializeEach : List SKValue → List JValue
  | [] => []
  | x :: xs => serialize_function_result x :: serializeEach xs

/-- The dict comprehension of the dict branch (values normalized, keys
kept). -/
def serializeValues : List (String × SKValue) → List (String × JValue)
  | [] => []
  | kv :: kvs => (kv.1, serialize_function_result kv.2) :: serializeValues kvs

end

theorem serializeEach_eq_map (xs : List SKValue) :
    serializeEach xs = xs.map serialize_function_result := by
  induction xs with
  | nil => rfl
  | cons x xs ih => simp [serializeEach, ih]

theorem serializeValues_eq_map (kvs : List (String × SKValue)) :
    serializeValues kvs = kvs.map (fun kv => (kv.1, serialize_function_result kv.2)) := by
  induction kvs with
  | nil => rfl
  | cons kv kvs ih => simp [serializeValues, ih]

/-- C9: `serialize_function_result` is total (a total function in the
embedding, so it never raises): it unwraps text-wrapper shapes to their
text, normalizes every element of a sequence and every value of a
key-value map recursively, recurses into the text/content/value attribute
of any other object exposing one, stringifies any remaining non-primitive,
substitutes the distinguishable `<Unserializable TypeName>` placeholder
when stringification fails, and maps a nested structure holding an
unserializable object at depth 3 to a fully JSON-encodable structure
(`JValue`) with the placeholder string at that position. -/
theorem c9_serialize_function_result_total (t ty s : String) (x : SKValue)
    (xs : List SKValue) (kvs : List (String × SKValue)) :
    serialize_function_result .vNone = .jNull ∧
    serialize_function_result (.textContent t) = .jStr t ∧
    serialize_function_result (.vList xs) = .jList (xs.map serialize_function_result) ∧
    serialize_function_result (.vDict kvs) =
      .jDict (kvs.map (fun kv => (kv.1, serialize_function_result kv.2))) ∧
    serialize_function_result (.objWithText t) = .jStr t ∧
    serialize_function_result (.objWithContent x) = serialize_function_result x ∧
    serialize_function_result (.objWithValue x) = serialize_function_result x ∧
    serialize_function_result (.vOther ty (some s)) = .jStr s ∧
    serialize_function_result (.vOther ty none) =
      .jStr ("<Unserializable " ++ ty ++ ">") ∧
    serialize_function_result
      (.vList [.vDict [("a", .vList [.vOther "CustomThing" none])], .vStr "ok"]) =
      .jList [.jDict [("a", .jList [.jStr "<Unserializable CustomThing>"])], .jStr "ok"] := by
  refine ⟨?_, ?_, ?_, ?_, ?_, ?_, ?_, ?_, ?_, ?_⟩ <;>
    simp [serialize_function_result, serializeEach_eq_map, serializeValues_eq_map,
      serializeEach, serializeValues]

/-! ## Section 3: the streaming chat orchestrator
(`semantic_kernel_setup.py` `chat_completion_streaming`, lines 179-371).
A provider run is embedded as the list of streamed messages the provider
yields before either finishing normally or raising, together with the
optional text of the raised exception.  Everything inside the function's
`try` (history building, the driving loop) that can raise is subsumed by
that error case. -/

/-- One normalized tool-invocation record as put into a chunk's
`function_calls` array: name, serialized arguments and serialized result. -/
structure FunctionCallRecord where
  name : String
  arguments : String
  result : JValue
deriving Repr

/-- Items of a streamed message (`stream_message.items`), by the type-name
probes of lines 249-275: function-call/tool-call items carry an optional
`result`; function-result items carry an optional `function_name` and an
optional `value`; anything else contributes nothing. -/
inductive SKItem where
  | functionCallItem (name arguments : String) (result : Option SKValue)
  | functionResultItem (function_name : Option String) (arguments : String)
      (value : Option SKValue)
  | otherItem
deriving Repr

/-- A tool call exposed through the probed direct attributes
(`function_calls` / `tool_calls` / `function_call` / `function_results`,
lines 277-320): the handling of the four attributes is identical, so they
are embedded as one flattened list. -/
structure DirectCall where
  name : String
  arguments : String
  result : Option SKValue
deriving Repr

/-- One incremental message received from the provider. -/
structure StreamMessage where
  content : String
  finish_reason : Option String
  items : List SKItem
  direct_calls : List DirectCall
deriving Repr

/-- One emitted stream chunk (`chunk_data`, lines 337-344). -/
structure StreamChunk where
  content : String
  function_calls : List FunctionCallRecord
  finish_reason : Option String
  role : String
deriving Repr

/-- Records extracted from one item (lines 249-275): a function-call or
tool-call item only when its `result` is non-null; a function-result item
whenever it exposes a `function_name`, its result taken from
`getattr(item, "value", getattr(item, "result", None))`. -/
def itemCalls : SKItem → List FunctionCallRecord
  | .functionCallItem n a r =>
      match r with
      | some v => [⟨n, a, serialize_function_result v⟩]
      | none => []
  | .functionResultItem fn a v =>
      match fn with
      | some n => [⟨n, a, serialize_function_result (v.getD .vNone)⟩]
      | none => []
  | .otherItem => []

/-- Records extracted from one directly-attributed call (lines 277-320):
only when the call's `result`/`value` is non-null. -/
def directCallRecords (d : DirectCall) : List FunctionCallRecord :=
  match d.result with
  | some v => [⟨d.name, d.arguments, serialize_function_result v⟩]
  | none => []

/-- All records the loop body collects for one message into
`function_calls` (items first, then the probed attributes). -/
def extractCalls (m : StreamMessage) : List FunctionCallRecord :=
  m.items.flatMap itemCalls ++ m.direct_calls.flatMap directCallRecords

/-- The dedup key `f"{func_call['name']}-{func_call['arguments']}"` of
line 325. -/
def call_id (r : FunctionCallRecord) : String := r.name ++ "-" ++ r.arguments

/-- The dedup filter of lines 322-328: walk the collected calls, keep each
whose key is not yet in `sent_function_calls`, adding kept keys to the set.
Returns the grown set and the unique calls in order. -/
def dedupCalls (sent : List String) :
    List FunctionCallRecord → List String × List FunctionCallRecord
  | [] => (sent, [])
  | c :: cs =>
      if call_id c ∈ sent then dedupCalls sent cs
      else
        let r := dedupCalls (sent ++ [call_id c]) cs
        (r.1, c :: r.2)

/-- The streaming loop (lines 230-344): for each message extract the
completed tool calls, deduplicate them against the turn-wide set, and
yield a chunk only when the message carries non-empty text or at least one
new call; the finish reason is normalized to "tool_calls" when the message
signals tool calls and new calls are present. -/
def processMessages (sent : List String) : List StreamMessage → List StreamChunk
  | [] => []
  | m :: ms =>
      let r := dedupCalls sent (extractCalls m)
      let rest := processMessages r.1 ms
      if m.content != "" || !r.2.isEmpty then
        { content := m.content
          function_calls := r.2
          finish_reason :=
            if m.finish_reason == some "tool_calls" && !r.2.isEmpty then some "tool_calls"
            else m.finish_reason
          role := "assistant" } :: rest
      else rest

/-- ASCII lowering of one character, as Python's `str.lower()` acts on the
ASCII range (the probed keywords are all ASCII). -/
def lowerChar (c : Char) : Char :=
  if 'A' ≤ c ∧ c ≤ 'Z' then Char.ofNat (c.toNat + 32) else c

/-- Python's `error_message.lower()` (ASCII range). -/
def pyLower (s : String) : String := String.mk (s.data.map lowerChar)

/-- Python's substring test `pat in s`. -/
def strContains (s pat : String) : Bool := decide (pat.data <:+: s.data)

/-- The content-filter classification of lines 360-363: the lowered error
text contains "content" and also "filter" or "policy". -/
def is_content_filter_error (msg : String) : Bool :=
  strContains (pyLower msg) "content" &&
  (strContains (pyLower msg) "filter" || strContains (pyLower msg) "policy")

/-- The single synthetic chunk yielded by the `except` handler (lines
346-371). -/
def error_chunk (e : String) : StreamChunk :=
  if is_content_filter_error e then
    { content := "This message has been blocked by the content filter. Please try again with different wording."
      function_calls := []
      finish_reason := some "content_filter"
      role := "assistant" }
  else
    { content := "Error: " ++ e
      function_calls := []
      finish_reason := some "error"
      role := "assistant" }

/-- One simulated provider run: the messages yielded before the provider
either completes (`err = none`) or raises with the given message text. -/
structure ProviderRun where
  msgs : List StreamMessage
  err : Option String
deriving Repr

/-- The whole generator `chat_completion_streaming` (lines 179-371): the
chunks of the processed messages, followed by exactly one synthetic error
chunk when the provider run raised; the generator itself never raises (its
embedding is a total function into a plain chunk list). -/
def chat_completion_streaming (run : ProviderRun) : List StreamChunk :=
  match run.err with
  | none => processMessages [] run.msgs
  | some e => processMessages [] run.msgs ++ [error_chunk e]

/-- C3: the streaming completion never raises past the generator boundary —
its embedding is total and, for a provider run failing at any point
mid-stream with error text `e`, the produced stream is exactly the
normally-processed chunks followed by one final synthetic chunk, whose
finish reason is "content_filter" when the lowered error text contains
"content" together with "filter" or "policy" and "error" otherwise; with
no failure no synthetic chunk is appended. -/
theorem c3_streaming_error_containment (msgs : List StreamMessage) (e : String) :
    chat_completion_streaming ⟨msgs, some e⟩ =
      processMessages [] msgs ++ [error_chunk e] ∧
    (error_chunk e).function_calls = [] ∧
    (error_chunk e).role = "assistant" ∧
    (is_content_filter_error e = true ↔
      ("content".data <:+: (pyLower e).data ∧
        ("filter".data <:+: (pyLower e).data ∨ "policy".data <:+: (pyLower e).data))) ∧
    (is_content_filter_error e = true →
      (error_chunk e).finish_reason = some "content_filter") ∧
    (is_content_filter_error e = false →
      (error_chunk e).finish_reason = some "error") ∧
    chat_completion_streaming ⟨msgs, none⟩ = processMessages [] msgs := by
  refine ⟨rfl, ?_, ?_, ?_, ?_, ?_, rfl⟩
  · cases hf : is_content_filter_error e <;> simp [error_chunk, hf]
  · cases hf : is_content_filter_error e <;> simp [error_chunk, hf]
  · simp [is_content_filter_error, strContains, Bool.and_eq_true, Bool.or_eq_true,
      decide_eq_true_eq]
  · intro hf
    simp [error_chunk, hf]
  · intro hf
    simp [error_chunk, hf]

/-! ### Deduplication lemmas -/

theorem dedupCalls_sent (sent : List String) (cs : List FunctionCallRecord) :
    (dedupCalls sent cs).1 = sent ++ (dedupCalls sent cs).2.map call_id := by
  induction cs generalizing sent with
  | nil => simp [dedupCalls]
  | cons c cs ih =>
      by_cases h : call_id c ∈ sent
      · simp only [dedupCalls, if_pos h]
        exact ih sent
      · simp only [dedupCalls, if_neg h, List.map_cons]
        rw [ih (sent ++ [call_id c])]
        simp

theorem dedupCalls_sub (sent : List String) (cs : List FunctionCallRecord) :
    ∀ r ∈ (dedupCalls sent cs).2, r ∈ cs := by
  induction cs generalizing sent with
  | nil => simp [dedupCalls]
  | cons c cs ih =>
      intro r hr
      by_cases h : call_id c ∈ sent
      · simp only [dedupCalls, if_pos h] at hr
        exact List.mem_cons_of_mem _ (ih sent r hr)
      · simp only [dedupCalls, if_neg h, List.mem_cons] at hr
        rcases hr with rfl | hr
        · exact List.mem_cons_self _ _
        · exact List.mem_cons_of_mem _ (ih (sent ++ [call_id c]) r hr)

theorem dedupCalls_nodup (sent : List String) (cs : List FunctionCallRecord) :
    ((dedupCalls sent cs).2.map call_id).Nodup ∧
    ∀ i ∈ (dedupCalls sent cs).2.map call_id, i ∉ sent := by
  induction cs generalizing sent with
  | nil => simp [dedupCalls]
  | cons c cs ih =>
      by_cases h : call_id c ∈ sent
      · simpa only [dedupCalls, if_pos h] using ih sent
      · simp only [dedupCalls, if_neg h, List.map_cons, List.nodup_cons, List.mem_cons]
        obtain ⟨ih1, ih2⟩ := ih (sent ++ [call_id c])
        refine ⟨⟨?_, ih1⟩, ?_⟩
        · intro hmem
          have := ih2 _ hmem
          simp at this
        · rintro i (rfl | hi)
          · exact h
          · intro hsent
            exact ih2 i hi (List.mem_append.mpr (Or.inl hsent))

/-! ### Streaming loop lemmas -/

theorem processMessages_ids (msgs : List StreamMessage) (sent : List String) :
    ((processMessages sent msgs).flatMap (fun c => c.function_calls.map call_id)).Nodup ∧
    ∀ i ∈ (processMessages sent msgs).flatMap (fun c => c.function_calls.map call_id),
      i ∉ sent := by
  induction msgs generalizing sent with
  | nil => simp [processMessages]
  | cons m ms ih =>
      obtain ⟨d1, d2⟩ := dedupCalls_nodup sent (extractCalls m)
      have hsent := dedupCalls_sent sent (extractCalls m)
      obtain ⟨ih1, ih2⟩ := ih ((dedupCalls sent (extractCalls m)).1)
      by_cases hc : (m.content != "" || !(dedupCalls sent (extractCalls m)).2.isEmpty) = true
      · simp only [processMessages, if_pos hc, List.flatMap_cons]
        rw [List.nodup_append]
        refine ⟨⟨d1, ih1, ?_⟩, ?_⟩
        · intro i hi hrest
          have hnot := ih2 i hrest
          rw [hsent] at hnot
          exact hnot (List.mem_append.mpr (Or.inr hi))
        · intro i hi
          rcases List.mem_append.mp hi with hi' | hi'
          · exact d2 i hi'
          · intro hsent0
            have hnot := ih2 i hi'
            rw [hsent] at hnot
            exact hnot (List.mem_append.mpr (Or.inl hsent0))
      · simp only [processMessages, if_neg hc]
        refine ⟨ih1, ?_⟩
        intro i hi hsent0
        have hnot := ih2 i hi
        rw [hsent] at hnot
        exact hnot (List.mem_append.mpr (Or.inl hsent0))

theorem processMessages_calls_from_extract (msgs : List StreamMessage) (sent : List String) :
    ∀ c ∈ processMessages sent msgs, ∀ rec ∈ c.function_calls,
      ∃ m ∈ msgs, rec ∈ extractCalls m := by
  induction msgs generalizing sent with
  | nil => simp [processMessages]
  | cons m ms ih =>
      intro c hc rec hrec
      by_cases hcond : (m.content != "" || !(dedupCalls sent (extractCalls m)).2.isEmpty) = true
      · simp only [processMessages, if_pos hcond, List.mem_cons] at hc
        rcases hc with rfl | hc'
        · exact ⟨m, List.mem_cons_self _ _,
            dedupCalls_sub sent (extractCalls m) rec hrec⟩
        · obtain ⟨m', hm', hr'⟩ :=
            ih ((dedupCalls sent (extractCalls m)).1) c hc' rec hrec
          exact ⟨m', List.mem_cons_of_mem _ hm', hr'⟩
      · simp only [processMessages, if_neg hcond] at hc
        obtain ⟨m', hm', hr'⟩ :=
          ih ((dedupCalls sent (extractCalls m)).1) c hc rec hrec
        exact ⟨m', List.mem_cons_of_mem _ hm', hr'⟩

theorem processMessages_gating (msgs : List StreamMessage) (sent : List String) :
    ∀ c ∈ processMessages sent msgs, c.content ≠ "" ∨ c.function_calls ≠ [] := by
  induction msgs generalizing sent with
  | nil => simp [processMessages]
  | cons m ms ih =>
      intro c hc
      by_cases hcond : (m.content != "" || !(dedupCalls sent (extractCalls m)).2.isEmpty) = true
      · simp only [processMessages, if_pos hcond, List.mem_cons] at hc
        rcases hc with rfl | hc'
        · simp at hcond
          simpa using hcond
        · exact ih _ c hc'
      · simp only [processMessages, if_neg hcond] at hc
        exact ih _ c hc

theorem extractCalls_spec (m : StreamMessage) (rec : FunctionCallRecord) :
    rec ∈ extractCalls m ↔
      ((∃ n a v, SKItem.functionCallItem n a (some v) ∈ m.items ∧
          rec = ⟨n, a, serialize_function_result v⟩) ∨
        (∃ n a v, SKItem.functionResultItem (some n) a v ∈ m.items ∧
          rec = ⟨n, a, serialize_function_result (v.getD .vNone)⟩) ∨
        (∃ d ∈ m.direct_calls, ∃ v, d.result = some v ∧
          rec = ⟨d.name, d.arguments, serialize_function_result v⟩)) := by
  simp only [extractCalls, List.mem_append, List.mem_flatMap]
  constructor
  · rintro (⟨item, hitem, hrec⟩ | ⟨d, hd, hrec⟩)
    · cases item with
      | functionCallItem n a r =>
          cases r with
          | none => simp [itemCalls] at hrec
          | some v =>
              simp only [itemCalls, List.mem_singleton] at hrec
              exact Or.inl ⟨n, a, v, hitem, hrec⟩
      | functionResultItem fn a v =>
          cases fn with
          | none => simp [itemCalls] at hrec
          | some n =>
              simp only [itemCalls, List.mem_singleton] at hrec
              exact Or.inr (Or.inl ⟨n, a, v, hitem, hrec⟩)
      | otherItem => simp [itemCalls] at hrec
    · cases hr : d.result with
      | none => rw [directCallRecords, hr] at hrec; simp at hrec
      | some v =>
          rw [directCallRecords, hr] at hrec
          simp only [List.mem_singleton] at hrec
          exact Or.inr (Or.inr ⟨d, hd, v, hr, hrec⟩)
  · rintro (⟨n, a, v, hitem, rfl⟩ | ⟨n, a, v, hitem, rfl⟩ | ⟨d, hd, v, hr, rfl⟩)
    · exact Or.inl ⟨_, hitem, by simp [itemCalls]⟩
    · exact Or.inl ⟨_, hitem, by simp [itemCalls]⟩
    · exact Or.inr ⟨d, hd, by simp [directCallRecords, hr]⟩

/-- C4 counterexample: a function-result item whose value is null is still
surfaced (the branch at lines 263-275 guards only on the presence of
`function_name`, not on a non-null result): the single emitted chunk
carries an invocation record whose result is null, contradicting the claim
that an invocation is surfaced only with a non-null result. -/
theorem c4_counterexample_null_result_surfaced :
    (processMessages []
      [⟨"", none, [.functionResultItem (some "f") "x=1" none], []⟩]).flatMap
      (fun c => c.function_calls) = [⟨"f", "x=1", JValue.jNull⟩] := rfl

/-- C4 (amended): within one streaming turn, an invocation reported through
a function-call/tool-call item or a probed direct attribute is surfaced
only when it has a non-null result, while an invocation reported through a
function-result item is surfaced whenever it exposes a function name (such
items mark completed execution, even when their value serializes to null);
the (name, arguments) composite keys of all surfaced invocations are
pairwise distinct across the whole turn, so a thrice-repeated identical
invocation is emitted exactly once; every surfaced invocation comes from
some received message; and a chunk is yielded only when it carries
non-empty text or at least one new invocation. -/
theorem c4_tool_call_surfacing_dedup_gating (msgs : List StreamMessage)
    (sent : List String) (m : StreamMessage) :
    (∀ rec ∈ extractCalls m,
      (∃ n a v, SKItem.functionCallItem n a (some v) ∈ m.items ∧
        rec = ⟨n, a, serialize_function_result v⟩) ∨
      (∃ n a v, SKItem.functionResultItem (some n) a v ∈ m.items ∧
        rec = ⟨n, a, serialize_function_result (v.getD .vNone)⟩) ∨
      (∃ d ∈ m.direct_calls, ∃ v, d.result = some v ∧
        rec = ⟨d.name, d.arguments, serialize_function_result v⟩)) ∧
    ((processMessages sent msgs).flatMap (fun c => c.function_calls.map call_id)).Nodup ∧
    (∀ c ∈ processMessages sent msgs, ∀ rec ∈ c.function_calls,
      ∃ m' ∈ msgs, rec ∈ extractCalls m') ∧
    (∀ c ∈ processMessages sent msgs, c.content ≠ "" ∨ c.function_calls ≠ []) ∧
    processMessages []
      [⟨"", none, [.functionCallItem "get_weather" "city=Tokyo" (some (.vStr "sunny"))], []⟩,
       ⟨"", none, [.functionCallItem "get_weather" "city=Tokyo" (some (.vStr "sunny"))], []⟩,
       ⟨"", none, [.functionCallItem "get_weather" "city=Tokyo" (some (.vStr "sunny"))], []⟩] =
      [{ content := ""
         function_calls := [⟨"get_weather", "city=Tokyo", .jStr "sunny"⟩]
         finish_reason := none
         role := "assistant" }] :=
  ⟨fun rec h => (extractCalls_spec m rec).mp h,
    (processMessages_ids msgs sent).1,
    processMessages_calls_from_extract msgs sent,
    processMessages_gating msgs sent,
    rfl⟩
